import Mathlib

/-!
Verification of the Group_D repository (Project Okavango).

The development shallowly embeds the two source modules:

* `src/app/merge_data.py` — column inference (`_infer_value_column`),
  latest-year-per-country reduction (`_latest_per_country`) and the
  left join of the Natural Earth world map with each OWID dataset
  (`merge_map_with_datasets`).
* `src/app/download_data.py` — `download_required_datasets`.

Pandas dataframes are embedded as lists of records.  `pd.to_numeric
(errors="coerce")` on the `Year` column is embedded as an integer parser
returning `Option Int` (`none` = not numeric-coercible, i.e. NaN after
coercion).  `sort_values(["Code", "Year"])` with several sort keys uses
numpy's lexsort, which is stable; it is embedded as a structurally
recursive stable insertion sort over the boolean lexicographic order on
`(Code, Year)` (all stable sorts of a list by the same total preorder
agree, so any provably stable sort is a faithful embedding).
`groupby("Code").tail(1)` keeps, in frame order, the last row of each
code group; it is embedded as `groupTail1`, which keeps exactly the rows
whose code does not occur again later in the list.
-/

namespace Okavango

/-! ### A stable sort (embedding of `df.sort_values(["Code", "Year"])`) -/

def orderedInsert {α : Type} (le : α → α → Bool) (x : α) : List α → List α
  | [] => [x]
  | y :: ys => if le x y then x :: y :: ys else y :: orderedInsert le x ys

def insertionSort {α : Type} (le : α → α → Bool) : List α → List α
  | [] => []
  | x :: xs => orderedInsert le x (insertionSort le xs)

theorem orderedInsert_perm {α : Type} (le : α → α → Bool) (x : α) (l : List α) :
    List.Perm (orderedInsert le x l) (x :: l) := by
  induction l with
  | nil => exact List.Perm.refl _
  | cons y ys ih =>
    rw [orderedInsert]
    by_cases h : le x y = true
    · rw [if_pos h]
    · rw [if_neg h]
      exact (List.Perm.cons y ih).trans (List.Perm.swap x y ys)

theorem insertionSort_perm {α : Type} (le : α → α → Bool) (l : List α) :
    List.Perm (insertionSort le l) l := by
  induction l with
  | nil => exact List.Perm.refl _
  | cons x xs ih =>
    exact (orderedInsert_perm le x _).trans (List.Perm.cons x ih)

theorem mem_insertionSort {α : Type} (le : α → α → Bool) (l : List α) (a : α) :
    a ∈ insertionSort le l ↔ a ∈ l :=
  (insertionSort_perm le l).mem_iff

theorem pairwise_orderedInsert {α : Type} (le : α → α → Bool)
    (total : ∀ a b, le a b = true ∨ le b a = true)
    (htrans : ∀ a b c, le a b = true → le b c = true → le a c = true)
    (x : α) (l : List α) (h : List.Pairwise (fun a b => le a b = true) l) :
    List.Pairwise (fun a b => le a b = true) (orderedInsert le x l) := by
  induction l with
  | nil => simp [orderedInsert]
  | cons y ys ih =>
    rw [orderedInsert]
    rcases List.pairwise_cons.mp h with ⟨hy, hys⟩
    by_cases hxy : le x y = true
    · rw [if_pos hxy]
      refine List.Pairwise.cons ?_ h
      intro z hz
      rcases List.mem_cons.mp hz with rfl | hz
      · exact hxy
      · exact htrans x y z hxy (hy z hz)
    · rw [if_neg hxy]
      refine List.Pairwise.cons ?_ (ih hys)
      intro z hz
      have hz2 := (orderedInsert_perm le x ys).mem_iff.mp hz
      rcases List.mem_cons.mp hz2 with rfl | hz3
      · rcases total z y with h1 | h1
        · exact absurd h1 hxy
        · exact h1
      · exact hy z hz3

theorem pairwise_insertionSort {α : Type} (le : α → α → Bool)
    (total : ∀ a b, le a b = true ∨ le b a = true)
    (htrans : ∀ a b c, le a b = true → le b c = true → le a c = true)
    (l : List α) :
    List.Pairwise (fun a b => le a b = true) (insertionSort le l) := by
  induction l with
  | nil => exact List.Pairwise.nil
  | cons x xs ih => exact pairwise_orderedInsert le total htrans x _ ih

theorem filter_orderedInsert_pos {α : Type} (le : α → α → Bool) (p : α → Bool)
    (x : α) (l : List α) (hx : p x = true)
    (hkey : ∀ y, p y = true → le x y = true) :
    (orderedInsert le x l).filter p = x :: l.filter p := by
  induction l with
  | nil => simp [orderedInsert, hx]
  | cons y ys ih =>
    rw [orderedInsert]
    by_cases hxy : le x y = true
    · rw [if_pos hxy]
      simp [List.filter_cons, hx]
    · rw [if_neg hxy]
      have hpy : p y = false := by
        cases hpy : p y
        · rfl
        · exact absurd (hkey y hpy) hxy
      simp [List.filter_cons, hpy, ih]

theorem filter_orderedInsert_neg {α : Type} (le : α → α → Bool) (p : α → Bool)
    (x : α) (l : List α) (hx : p x = false) :
    (orderedInsert le x l).filter p = l.filter p := by
  induction l with
  | nil => simp [orderedInsert, hx]
  | cons y ys ih =>
    rw [orderedInsert]
    by_cases hxy : le x y = true
    · rw [if_pos hxy]
      simp [List.filter_cons, hx]
    · rw [if_neg hxy]
      simp [List.filter_cons, ih]

/-- Stability of the sort: the relative order of elements that are
mutually tied under `le` (here: that all satisfy `p`, where `p` picks a
single sort key) is unchanged. -/
theorem filter_insertionSort {α : Type} (le : α → α → Bool) (p : α → Bool)
    (l : List α) (hkey : ∀ x, p x = true → ∀ y, p y = true → le x y = true) :
    (insertionSort le l).filter p = l.filter p := by
  induction l with
  | nil => rfl
  | cons x xs ih =>
    rw [insertionSort]
    cases hx : p x
    · rw [filter_orderedInsert_neg le p x _ hx]
      simp [List.filter_cons, hx, ih]
    · rw [filter_orderedInsert_pos le p x _ hx (hkey x hx)]
      simp [List.filter_cons, hx, ih]

/-! ### Data model for one OWID dataset row

`DataRow` is a row of the frame `df[["Entity", "Code", "Year", value_col]]`
passed to `_latest_per_country` (merge_data.py line 96): `code` is the
nullable country code, `year` the raw `Year` cell, `value` the cell of the
inferred value column.  `LatestRow` is a row after `dropna(subset=["Code"])`
and the numeric coercion of `Year`. -/

structure DataRow where
  entity : String
  code : Option String
  year : String
  value : String
deriving DecidableEq

structure LatestRow where
  entity : String
  code : String
  year : Int
  value : String
deriving DecidableEq

/-- Helper for `toNumeric`: value of a non-empty all-digit character list. -/
def digitsVal (acc : Nat) : List Char → Option Nat
  | [] => some acc
  | c :: cs => if c.isDigit then digitsVal (10 * acc + (c.toNat - 48)) cs else none

/-- Embedding of `pd.to_numeric(df["Year"], errors="coerce")` on one cell:
an optionally signed decimal integer parses, anything else coerces to NaN
(`none`).  Years in the source data are integers. -/
def toNumeric (s : String) : Option Int :=
  match s.data with
  | [] => none
  | '-' :: cs =>
    match cs with
    | [] => none
    | _ => (digitsVal 0 cs).map (fun n => -(n : Int))
  | cs => (digitsVal 0 cs).map (fun n => (n : Int))

/-- Code-point lexicographic order on character lists: how python (and
hence pandas `sort_values` on an object column) compares strings. -/
def charsLT : List Char → List Char → Bool
  | [], [] => false
  | [], _ :: _ => true
  | _ :: _, [] => false
  | c :: cs, d :: ds =>
    if c.toNat < d.toNat then true
    else if d.toNat < c.toNat then false
    else charsLT cs ds

def strLT (a b : String) : Bool := charsLT a.data b.data

theorem char_eq_of_toNat_eq {c d : Char} (h : c.toNat = d.toNat) : c = d := by
  have h2 : Char.ofNat c.toNat = Char.ofNat d.toNat := by rw [h]
  rwa [Char.ofNat_toNat, Char.ofNat_toNat] at h2

theorem str_eq_of_data_eq {a b : String} (h : a.data = b.data) : a = b := by
  cases a
  cases b
  exact congrArg String.mk h

theorem charsLT_irrefl : ∀ xs, charsLT xs xs = false
  | [] => rfl
  | c :: cs => by simp [charsLT, charsLT_irrefl cs]

theorem strLT_irrefl (a : String) : strLT a a = false :=
  charsLT_irrefl a.data

theorem charsLT_trichotomy :
    ∀ xs ys, charsLT xs ys = true ∨ xs = ys ∨ charsLT ys xs = true
  | [], [] => Or.inr (Or.inl rfl)
  | [], _ :: _ => Or.inl rfl
  | _ :: _, [] => Or.inr (Or.inr rfl)
  | c :: cs, d :: ds => by
    by_cases h1 : c.toNat < d.toNat
    · left; simp [charsLT, h1]
    · by_cases h2 : d.toNat < c.toNat
      · right; right; simp [charsLT, h2, h1]
      · have hcd : c = d := char_eq_of_toNat_eq (le_antisymm (not_lt.mp h2) (not_lt.mp h1))
        subst hcd
        rcases charsLT_trichotomy cs ds with h | h | h
        · left; simp [charsLT, h]
        · right; left; rw [h]
        · right; right; simp [charsLT, h]

theorem strLT_trichotomy (a b : String) :
    strLT a b = true ∨ a = b ∨ strLT b a = true := by
  rcases charsLT_trichotomy a.data b.data with h | h | h
  · exact Or.inl h
  · exact Or.inr (Or.inl (str_eq_of_data_eq h))
  · exact Or.inr (Or.inr h)

theorem charsLT_trans :
    ∀ xs ys zs, charsLT xs ys = true → charsLT ys zs = true → charsLT xs zs = true
  | xs, [], _, hab, _ => by cases xs <;> simp [charsLT] at hab
  | [], _ :: _, [], _, hbc => by simp [charsLT] at hbc
  | [], _ :: _, _ :: _, _, _ => rfl
  | _ :: _, _ :: _, [], _, hbc => by simp [charsLT] at hbc
  | c :: cs, d :: ds, e :: es, hab, hbc => by
    simp only [charsLT] at hab hbc ⊢
    rcases lt_trichotomy c.toNat d.toNat with h1 | h1 | h1
    · rcases lt_trichotomy d.toNat e.toNat with h2 | h2 | h2
      · simp [lt_trans h1 h2]
      · have hde : d = e := char_eq_of_toNat_eq h2
        subst hde
        simp [h1]
      · simp [lt_asymm h2, h2] at hbc
    · have hcd : c = d := char_eq_of_toNat_eq h1
      subst hcd
      simp only [lt_self_iff_false, if_false] at hab
      rcases lt_trichotomy c.toNat e.toNat with h2 | h2 | h2
      · simp [h2]
      · have hce : c = e := char_eq_of_toNat_eq h2
        subst hce
        simp only [lt_self_iff_false, if_false] at hbc ⊢
        exact charsLT_trans cs ds es hab hbc
      · simp [lt_asymm h2, h2] at hbc
    · simp [lt_asymm h1, h1] at hab

theorem strLT_trans {a b c : String} (hab : strLT a b = true)
    (hbc : strLT b c = true) : strLT a c = true :=
  charsLT_trans a.data b.data c.data hab hbc

/-- Boolean lexicographic order on the sort keys `(Code, Year)` used by
`df.sort_values(["Code", "Year"])` (merge_data.py line 41). -/
def rowLE (a b : LatestRow) : Bool :=
  strLT a.code b.code || (a.code == b.code && decide (a.year ≤ b.year))

theorem rowLE_total : ∀ a b, rowLE a b = true ∨ rowLE b a = true := by
  intro a b
  rcases strLT_trichotomy a.code b.code with h | h | h
  · left; simp [rowLE, h]
  · rcases le_total a.year b.year with h2 | h2
    · left; simp [rowLE, h, h2]
    · right; simp [rowLE, h.symm, h2]
  · right; simp [rowLE, h]

theorem rowLE_trans :
    ∀ a b c, rowLE a b = true → rowLE b c = true → rowLE a c = true := by
  intro a b c hab hbc
  simp only [rowLE, Bool.or_eq_true, Bool.and_eq_true, decide_eq_true_eq,
    beq_iff_eq] at hab hbc ⊢
  rcases hab with h1 | ⟨h1, h1y⟩
  · rcases hbc with h2 | ⟨h2, _⟩
    · exact Or.inl (strLT_trans h1 h2)
    · exact Or.inl (h2 ▸ h1)
  · rcases hbc with h2 | ⟨h2, h2y⟩
    · exact Or.inl (h1.symm ▸ h2)
    · exact Or.inr ⟨h1.trans h2, le_trans h1y h2y⟩

theorem rowLE_year {s r : LatestRow} (h : rowLE s r = true)
    (hc : s.code = r.code) : s.year ≤ r.year := by
  simp only [rowLE, Bool.or_eq_true, Bool.and_eq_true, decide_eq_true_eq,
    beq_iff_eq] at h
  rcases h with h | ⟨_, h⟩
  · rw [hc, strLT_irrefl] at h
    cases h
  · exact h

/-! ### `_latest_per_country` (merge_data.py lines 32-42) -/

/-- Lines 37-39: `df.dropna(subset=["Code"])`, then
`df["Year"] = pd.to_numeric(df["Year"], errors="coerce")`, then
`df.dropna(subset=["Year"])`. -/
def prepRows (rows : List DataRow) : List LatestRow :=
  (rows.filter (fun r => r.code.isSome)).filterMap (fun r =>
    match r.code, toNumeric r.year with
    | some c, some y => some { entity := r.entity, code := c, year := y, value := r.value }
    | _, _ => none)

/-- Line 42: `df.groupby("Code", as_index=False).tail(1)` keeps, in frame
order, the last row of each code group: a row survives exactly when its
code does not occur again later in the frame. -/
def groupTail1 : List LatestRow → List LatestRow
  | [] => []
  | r :: rs =>
    if rs.any (fun s => s.code == r.code) then groupTail1 rs
    else r :: groupTail1 rs

/-- Embedding of `_latest_per_country` (merge_data.py lines 32-42). -/
def _latest_per_country (rows : List DataRow) : List LatestRow :=
  groupTail1 (insertionSort rowLE (prepRows rows))

theorem prepRows_cons_none (r : DataRow) (rs : List DataRow)
    (hc : r.code = none) : prepRows (r :: rs) = prepRows rs := by
  simp [prepRows, List.filter_cons, hc]

theorem prepRows_cons_bad (r : DataRow) (rs : List DataRow) (c : String)
    (hc : r.code = some c) (hy : toNumeric r.year = none) :
    prepRows (r :: rs) = prepRows rs := by
  simp [prepRows, List.filter_cons, List.filterMap_cons, hc, hy]

theorem prepRows_cons_ok (r : DataRow) (rs : List DataRow) (c : String) (y : Int)
    (hc : r.code = some c) (hy : toNumeric r.year = some y) :
    prepRows (r :: rs) =
      { entity := r.entity, code := c, year := y, value := r.value } :: prepRows rs := by
  simp [prepRows, List.filter_cons, List.filterMap_cons, hc, hy]

theorem of_mem_prepRows (rows : List DataRow) (x : LatestRow)
    (h : x ∈ prepRows rows) :
    ∃ r ∈ rows, r.entity = x.entity ∧ r.code = some x.code ∧
      toNumeric r.year = some x.year ∧ r.value = x.value := by
  induction rows with
  | nil => simp [prepRows] at h
  | cons r rs ih =>
    rcases hc : r.code with _ | c
    · rw [prepRows_cons_none r rs hc] at h
      rcases ih h with ⟨r0, hr0, hprops⟩
      exact ⟨r0, List.mem_cons_of_mem r hr0, hprops⟩
    · rcases hy : toNumeric r.year with _ | y
      · rw [prepRows_cons_bad r rs c hc hy] at h
        rcases ih h with ⟨r0, hr0, hprops⟩
        exact ⟨r0, List.mem_cons_of_mem r hr0, hprops⟩
      · rw [prepRows_cons_ok r rs c y hc hy] at h
        rcases List.mem_cons.mp h with rfl | h2
        · exact ⟨r, List.mem_cons_self r rs, rfl, hc, hy, rfl⟩
        · rcases ih h2 with ⟨r0, hr0, hprops⟩
          exact ⟨r0, List.mem_cons_of_mem r hr0, hprops⟩

theorem prepRows_any_code (rows : List DataRow) (c : String) :
    (prepRows rows).any (fun r => r.code == c) =
      rows.any (fun r => r.code == some c && (toNumeric r.year).isSome) := by
  induction rows with
  | nil => rfl
  | cons r rs ih =>
    rcases hc : r.code with _ | c0
    · rw [prepRows_cons_none r rs hc]
      simp [List.any_cons, hc, ih]
    · rcases hy : toNumeric r.year with _ | y
      · rw [prepRows_cons_bad r rs c0 hc hy]
        simp [List.any_cons, hc, hy, ih]
      · rw [prepRows_cons_ok r rs c0 y hc hy]
        simp [List.any_cons, hc, hy, ih]

theorem prepRows_nil_of_null (rows : List DataRow)
    (h : ∀ r ∈ rows, r.code = none) : prepRows rows = [] := by
  induction rows with
  | nil => rfl
  | cons r rs ih =>
    rw [prepRows_cons_none r rs (h r (List.mem_cons_self r rs))]
    exact ih (fun r2 hr2 => h r2 (List.mem_cons_of_mem r hr2))

/-- Spec-side description of the numeric-coercible years carried by rows of
a given code, read off the input. -/
def codeYears (rows : List DataRow) (c : String) : List Int :=
  rows.filterMap (fun r => if r.code == some c then toNumeric r.year else none)

theorem codeYears_eq (rows : List DataRow) (c : String) :
    codeYears rows c =
      ((prepRows rows).filter (fun r => r.code == c)).map (fun r => r.year) := by
  induction rows with
  | nil => rfl
  | cons r rs ih =>
    simp only [codeYears, beq_iff_eq] at ih ⊢
    rcases hc : r.code with _ | c0
    · rw [prepRows_cons_none r rs hc]
      simp [List.filterMap_cons, hc, ih]
    · by_cases hcc : c0 = c
      · subst hcc
        rcases hy : toNumeric r.year with _ | y
        · rw [prepRows_cons_bad r rs c0 hc hy]
          simp [List.filterMap_cons, hc, hy, ih]
        · rw [prepRows_cons_ok r rs c0 y hc hy]
          simp [List.filterMap_cons, List.filter_cons, hc, hy, ih]
      · rcases hy : toNumeric r.year with _ | y
        · rw [prepRows_cons_bad r rs c0 hc hy]
          simp [List.filterMap_cons, hc, hcc, ih]
        · rw [prepRows_cons_ok r rs c0 y hc hy]
          simp [List.filterMap_cons, List.filter_cons, hc, hcc, hy, ih]

theorem any_congr_perm {α : Type} (p : α → Bool) {l1 l2 : List α}
    (h : List.Perm l1 l2) : l1.any p = l2.any p := by
  rw [Bool.eq_iff_iff]
  simp only [List.any_eq_true]
  constructor
  · rintro ⟨a, ha, hpa⟩
    exact ⟨a, h.mem_iff.mp ha, hpa⟩
  · rintro ⟨a, ha, hpa⟩
    exact ⟨a, h.mem_iff.mpr ha, hpa⟩

theorem countP_groupTail1 (l : List LatestRow) (c : String) :
    (groupTail1 l).countP (fun r => r.code == c) =
      if l.any (fun r => r.code == c) then 1 else 0 := by
  induction l with
  | nil => simp [groupTail1]
  | cons r rs ih =>
    rw [groupTail1]
    by_cases h : rs.any (fun s => s.code == r.code) = true
    · rw [if_pos h, ih]
      by_cases hc : r.code = c
      · have h2 : rs.any (fun s => s.code == c) = true := by
          rcases List.any_eq_true.mp h with ⟨s, hs, hsc⟩
          refine List.any_eq_true.mpr ⟨s, hs, ?_⟩
          rw [beq_iff_eq] at hsc ⊢
          rw [hsc, hc]
        simp [List.any_cons, h2, hc]
      · simp [List.any_cons, hc]
    · rw [if_neg h, List.countP_cons, ih]
      by_cases hc : r.code = c
      · have h2 : rs.any (fun s => s.code == c) = false := by
          cases hany : rs.any (fun s => s.code == c)
          · rfl
          · exfalso
            apply h
            rcases List.any_eq_true.mp hany with ⟨s, hs, hsc⟩
            refine List.any_eq_true.mpr ⟨s, hs, ?_⟩
            rw [beq_iff_eq] at hsc ⊢
            rw [hsc, hc]
        simp [List.any_cons, h2, hc]
      · simp [List.any_cons, hc]

theorem mem_of_mem_groupTail1 {l : List LatestRow} {r : LatestRow}
    (h : r ∈ groupTail1 l) : r ∈ l := by
  induction l with
  | nil => simp [groupTail1] at h
  | cons x xs ih =>
    rw [groupTail1] at h
    by_cases hx : xs.any (fun s => s.code == x.code) = true
    · rw [if_pos hx] at h
      exact List.mem_cons_of_mem x (ih h)
    · rw [if_neg hx] at h
      rcases List.mem_cons.mp h with rfl | h2
      · exact List.mem_cons_self _ _
      · exact List.mem_cons_of_mem x (ih h2)

/-- The operation `groupby(...).tail(1)` keeps exactly the last frame-order occurrence of
each code. -/
theorem groupTail1_getLast (l : List LatestRow) (r : LatestRow)
    (h : r ∈ groupTail1 l) :
    (l.filter (fun s => s.code == r.code)).getLast? = some r := by
  induction l with
  | nil => simp [groupTail1] at h
  | cons x xs ih =>
    rw [groupTail1] at h
    by_cases hx : xs.any (fun s => s.code == x.code) = true
    · rw [if_pos hx] at h
      have h2 := ih h
      rw [List.filter_cons]
      by_cases hc : (x.code == r.code) = true
      · rw [if_pos hc]
        rcases hlist : xs.filter (fun s => s.code == r.code) with _ | ⟨y, ys⟩
        · rw [hlist] at h2
          simp at h2
        · rw [hlist] at h2
          simp only [hlist, List.getLast?_cons_cons]
          exact h2
      · rw [if_neg hc]
        exact h2
    · rw [if_neg hx] at h
      rcases List.mem_cons.mp h with rfl | h2
      · rw [List.filter_cons, if_pos (by rw [beq_iff_eq])]
        have hnil : xs.filter (fun s => s.code == r.code) = [] := by
          rw [List.filter_eq_nil_iff]
          intro a ha hcon
          apply hx
          exact List.any_eq_true.mpr ⟨a, ha, hcon⟩
        rw [hnil]
        rfl
      · have h3 := ih h2
        rw [List.filter_cons]
        by_cases hc : (x.code == r.code) = true
        · exfalso
          apply hx
          refine List.any_eq_true.mpr ⟨r, mem_of_mem_groupTail1 h2, ?_⟩
          rw [beq_iff_eq] at hc ⊢
          exact hc.symm
        · rw [if_neg hc]
          exact h3

/-- In a `(Code, Year)`-sorted frame, the row kept for a code has the
maximum year among the rows carrying that code. -/
theorem groupTail1_max : ∀ (l : List LatestRow),
    List.Pairwise (fun a b => rowLE a b = true) l →
    ∀ r ∈ groupTail1 l, ∀ s ∈ l, s.code = r.code → s.year ≤ r.year := by
  intro l
  induction l with
  | nil => intro _ r hr; simp [groupTail1] at hr
  | cons x xs ih =>
    intro hs r hr s hsl hcode
    rcases List.pairwise_cons.mp hs with ⟨hx1, hxs⟩
    rw [groupTail1] at hr
    by_cases hx : xs.any (fun s2 => s2.code == x.code) = true
    · rw [if_pos hx] at hr
      rcases List.mem_cons.mp hsl with rfl | hsl2
      · exact rowLE_year (hx1 r (mem_of_mem_groupTail1 hr)) hcode
      · exact ih hxs r hr s hsl2 hcode
    · rw [if_neg hx] at hr
      rcases List.mem_cons.mp hr with rfl | hr2
      · rcases List.mem_cons.mp hsl with rfl | hsl2
        · exact le_refl _
        · exfalso
          apply hx
          refine List.any_eq_true.mpr ⟨s, hsl2, ?_⟩
          rw [beq_iff_eq]
          exact hcode
      · rcases List.mem_cons.mp hsl with rfl | hsl2
        · exact rowLE_year (hx1 r (mem_of_mem_groupTail1 hr2)) hcode
        · exact ih hxs r hr2 s hsl2 hcode

theorem getLast?_filter_of_pos {α : Type} (l : List α) (p : α → Bool) (r : α)
    (h : l.getLast? = some r) (hp : p r = true) :
    (l.filter p).getLast? = some r := by
  induction l with
  | nil => simp at h
  | cons x xs ih =>
    rcases xs with _ | ⟨y, ys⟩
    · simp only [List.getLast?_singleton, Option.some.injEq] at h
      subst h
      simp [List.filter_cons, hp]
    · rw [List.getLast?_cons_cons] at h
      have h2 := ih h
      rw [List.filter_cons]
      by_cases hx : p x = true
      · rw [if_pos hx]
        rcases hft : (y :: ys).filter p with _ | ⟨z, zs⟩
        · rw [hft] at h2
          simp at h2
        · rw [hft] at h2
          simp only [hft, List.getLast?_cons_cons]
          exact h2
      · rw [if_neg hx]
        exact h2

/-! ### Claims about `_latest_per_country` -/

/-- C2: for every input table, `_latest_per_country` returns exactly one
row for each distinct non-null `Code` having at least one
numeric-coercible `Year`; that row's year is the maximum numeric-coercible
year observed for the code in the input; rows with null code or
non-coercible year contribute nothing, and an input with only null codes
yields an empty result. -/
theorem latest_per_country_correct (rows rowsB : List DataRow) (c : String)
    (h : rows.any (fun r => r.code == some c && (toNumeric r.year).isSome) = true) :
    (_latest_per_country rows).countP (fun r => r.code == c) = 1 ∧
    (∀ r ∈ _latest_per_country rows, r.code = c →
      r.year ∈ codeYears rows c ∧ ∀ y ∈ codeYears rows c, y ≤ r.year) ∧
    ((∀ r ∈ rowsB, r.code = none) → _latest_per_country rowsB = []) := by
  refine ⟨?_, ?_, ?_⟩
  · rw [_latest_per_country, countP_groupTail1,
      any_congr_perm _ (insertionSort_perm rowLE (prepRows rows)),
      prepRows_any_code, h]
    rfl
  · intro r hr hc
    have hrs : r ∈ insertionSort rowLE (prepRows rows) := mem_of_mem_groupTail1 hr
    have hrp : r ∈ prepRows rows := (mem_insertionSort rowLE _ r).mp hrs
    constructor
    · rw [codeYears_eq]
      refine List.mem_map.mpr ⟨r, List.mem_filter.mpr ⟨hrp, ?_⟩, rfl⟩
      rw [beq_iff_eq]
      exact hc
    · intro y hy
      rw [codeYears_eq] at hy
      rcases List.mem_map.mp hy with ⟨s, hs, rfl⟩
      rcases List.mem_filter.mp hs with ⟨hsp, hsc⟩
      refine groupTail1_max _
        (pairwise_insertionSort rowLE rowLE_total rowLE_trans (prepRows rows))
        r hr s ((mem_insertionSort rowLE _ s).mpr hsp) ?_
      rw [beq_iff_eq] at hsc
      rw [hsc, hc]
  · intro hnull
    rw [_latest_per_country, prepRows_nil_of_null rowsB hnull]
    rfl

/-- Witness for C2 at a concrete input (the spec's Kenya example). -/
theorem latest_per_country_correct_witness :
    (_latest_per_country
        [⟨"Kenya", some "KEN", "2019", "10"⟩, ⟨"Kenya", some "KEN", "2020", "12"⟩]).countP
        (fun r => r.code == "KEN") = 1 ∧
    (∀ r ∈ _latest_per_country
        [⟨"Kenya", some "KEN", "2019", "10"⟩, ⟨"Kenya", some "KEN", "2020", "12"⟩],
      r.code = "KEN" →
      r.year ∈ codeYears
          [⟨"Kenya", some "KEN", "2019", "10"⟩, ⟨"Kenya", some "KEN", "2020", "12"⟩] "KEN" ∧
      ∀ y ∈ codeYears
          [⟨"Kenya", some "KEN", "2019", "10"⟩, ⟨"Kenya", some "KEN", "2020", "12"⟩] "KEN",
        y ≤ r.year) ∧
    ((∀ r ∈ ([⟨"Africa", none, "2021", "99"⟩] : List DataRow), r.code = none) →
      _latest_per_country [⟨"Africa", none, "2021", "99"⟩] = []) :=
  latest_per_country_correct
    [⟨"Kenya", some "KEN", "2019", "10"⟩, ⟨"Kenya", some "KEN", "2020", "12"⟩]
    [⟨"Africa", none, "2021", "99"⟩] "KEN" (by decide)

/-- C5: among several surviving rows sharing a code and its maximum year,
the selected row is the last occurrence in (preprocessed) input order —
the stable `(Code, Year)` sort keeps ties in input order and
`groupby(...).tail(1)` takes the last row — so the selection is
deterministic. -/
theorem latest_per_country_tiebreak (rows : List DataRow) (r : LatestRow)
    (hr : r ∈ _latest_per_country rows) :
    ((prepRows rows).filter
        (fun s => s.code == r.code && s.year == r.year)).getLast? = some r ∧
    ∀ s ∈ prepRows rows, s.code = r.code → s.year ≤ r.year := by
  constructor
  · have h1 := groupTail1_getLast _ r hr
    have h2 := getLast?_filter_of_pos _ (fun s => s.year == r.year) r h1
      (by rw [beq_iff_eq])
    rw [List.filter_filter] at h2
    have h3 : (insertionSort rowLE (prepRows rows)).filter
        (fun s => s.code == r.code && s.year == r.year) =
        (prepRows rows).filter (fun s => s.code == r.code && s.year == r.year) := by
      refine filter_insertionSort rowLE _ _ ?_
      intro x hx y hy
      simp only [Bool.and_eq_true, beq_iff_eq] at hx hy
      simp [rowLE, hx.1, hy.1, hx.2, hy.2]
    rw [List.filter_congr (fun a _ => Bool.and_comm _ _), h3] at h2
    exact h2
  · intro s hs hsc
    exact groupTail1_max _
      (pairwise_insertionSort rowLE rowLE_total rowLE_trans (prepRows rows))
      r hr s ((mem_insertionSort rowLE _ s).mpr hs) hsc

/-- Witness for C5 at a concrete input with a genuine tie: two rows share
code `KEN` and the maximum year `2020`; the second one is selected. -/
theorem latest_per_country_tiebreak_witness :
    ((prepRows [⟨"Kenya", some "KEN", "2020", "a"⟩, ⟨"Kenya", some "KEN", "2020", "b"⟩]).filter
        (fun s => s.code == LatestRow.code ⟨"Kenya", "KEN", 2020, "b"⟩ &&
          s.year == LatestRow.year ⟨"Kenya", "KEN", 2020, "b"⟩)).getLast? =
      some ⟨"Kenya", "KEN", 2020, "b"⟩ ∧
    ∀ s ∈ prepRows [⟨"Kenya", some "KEN", "2020", "a"⟩, ⟨"Kenya", some "KEN", "2020", "b"⟩],
      s.code = LatestRow.code ⟨"Kenya", "KEN", 2020, "b"⟩ →
      s.year ≤ LatestRow.year ⟨"Kenya", "KEN", 2020, "b"⟩ :=
  latest_per_country_tiebreak
    [⟨"Kenya", some "KEN", "2020", "a"⟩, ⟨"Kenya", some "KEN", "2020", "b"⟩]
    ⟨"Kenya", "KEN", 2020, "b"⟩ (by decide)

/-- C10: `_latest_per_country` only filters: every output row is an input
row, with `Entity`, `Code` and `value` unchanged and `Year` equal to the
numeric coercion of that input row's raw `Year` cell. -/
theorem latest_rows_from_input (rows : List DataRow) (r : LatestRow)
    (h : r ∈ _latest_per_country rows) :
    ∃ r0 ∈ rows, r0.entity = r.entity ∧ r0.code = some r.code ∧
      toNumeric r0.year = some r.year ∧ r0.value = r.value :=
  of_mem_prepRows rows r
    ((mem_insertionSort rowLE _ r).mp (mem_of_mem_groupTail1 h))

/-- Witness for C10 at a concrete input. -/
theorem latest_rows_from_input_witness :
    ∃ r0 ∈ ([⟨"Kenya", some "KEN", "2019", "10"⟩,
        ⟨"Kenya", some "KEN", "2020", "12"⟩] : List DataRow),
      DataRow.entity r0 = LatestRow.entity ⟨"Kenya", "KEN", 2020, "12"⟩ ∧
      DataRow.code r0 = some (LatestRow.code ⟨"Kenya", "KEN", 2020, "12"⟩) ∧
      toNumeric (DataRow.year r0) = some (LatestRow.year ⟨"Kenya", "KEN", 2020, "12"⟩) ∧
      DataRow.value r0 = LatestRow.value ⟨"Kenya", "KEN", 2020, "12"⟩ :=
  latest_rows_from_input
    [⟨"Kenya", some "KEN", "2019", "10"⟩, ⟨"Kenya", some "KEN", "2020", "12"⟩]
    ⟨"Kenya", "KEN", 2020, "12"⟩ (by decide)

/-! ### Column inference and the merge pipeline (merge_data.py lines 17-111)

A CSV table is embedded as its header (`columns`) plus its rows; extra
non-structural cells of a row are an association list keyed by column
name.  The world shapefile is embedded as its attribute header plus rows
carrying the nullable `ISO_A3` cell, the geometry and the remaining
attributes.  Errors raised by the python code (`FileNotFoundError`,
`ValueError`) are embedded as an error type returned through `Except`;
the merge either returns the full label-indexed list of merged tables or
the first error, which models "the whole call fails, no partial results".
The pandas left merge keeps, for each left row in order, one output row
per matching right row (or one null-filled row when nothing matches);
a null left key matches nothing because the right side of this merge
contains no null codes. -/

structure WorldRow where
  iso_a3 : Option String
  geometry : String
  attrs : List (String × String)
deriving DecidableEq

structure WorldFile where
  columns : List String
  rows : List WorldRow
deriving DecidableEq

structure CsvRow where
  entity : String
  code : Option String
  year : String
  cells : List (String × String)
deriving DecidableEq

structure RawTable where
  columns : List String
  rows : List CsvRow
deriving DecidableEq

structure DownloadsDir where
  world : Option WorldFile
  csvs : List (String × RawTable)
deriving DecidableEq

inductive MergeError where
  | fileNotFound (path : String)
  | isoA3NotFound (columns : List String)
  | schemaError (filename : String) (missing : List String)
  | inferenceError (columns : List String)
deriving DecidableEq

structure MergedRow where
  world : WorldRow
  matched : Option LatestRow
deriving DecidableEq

structure MergedTable where
  columns : List String
  rows : List MergedRow
deriving DecidableEq

/-- The set `preferred_drop = {"Entity", "Code", "Year"}` (line 22), also the
`required` set of line 88. -/
def structuralCols : List String := ["Entity", "Code", "Year"]

/-- Embedding of `_infer_value_column` (lines 17-29): drop the structural
columns, fail if nothing remains, else return the last candidate
(`candidates[-1]`). -/
def _infer_value_column (columns : List String) : Except MergeError String :=
  match (columns.filter (fun c => !structuralCols.contains c)).getLast? with
  | none => .error (.inferenceError columns)
  | some c => .ok c

/-- Line 96: `df[["Entity", "Code", "Year", value_col]]`. -/
def subsetRow (vc : String) (r : CsvRow) : DataRow :=
  { entity := r.entity, code := r.code, year := r.year,
    value := ((r.cells.lookup vc).getD "") }

/-- Line 68: `world["ISO_A3"].replace("-99", pd.NA)`. -/
def normalizeIso (w : WorldRow) : WorldRow :=
  if w.iso_a3 == some "-99" then { w with iso_a3 := none } else w

/-- One left row's contribution to the left merge of lines 99-104: all
matching right rows, or a single null-filled row when nothing matches. -/
def mergeBlock (latest : List LatestRow) (w : WorldRow) : List MergedRow :=
  match latest.filter (fun r => w.iso_a3 == some r.code) with
  | [] => [{ world := w, matched := none }]
  | m :: ms => (m :: ms).map (fun x => { world := w, matched := some x })

/-- Embedding of `world.merge(latest, how="left", left_on="ISO_A3", right_on="Code")`
(lines 99-104), restricted to the rows. -/
def leftMerge (world : List WorldRow) (latest : List LatestRow) : List MergedRow :=
  world.flatMap (mergeBlock latest)

/-- Processing of one dataset inside the loop of lines 81-109: schema
check (lines 88-91), value-column inference (line 93), column subsetting
and latest-per-country reduction (line 96), left merge (lines 99-104) and
the rename of the value column to `value` (line 107).  The merged frame's
header is the map's columns followed by the dataset's `Entity`, `Code`,
`Year` and (renamed) value columns, as produced by the pandas merge. -/
def mergeOne (worldCols : List String) (world : List WorldRow)
    (filename : String) (t : RawTable) : Except MergeError MergedTable :=
  if (structuralCols.filter (fun c => !t.columns.contains c)).isEmpty then
    match _infer_value_column t.columns with
    | .error e => .error e
    | .ok valueCol =>
        .ok { columns := (worldCols ++ ["Entity", "Code", "Year", valueCol]).map
                (fun c => if c == valueCol then "value" else c),
              rows := leftMerge world
                (_latest_per_country (t.rows.map (subsetRow valueCol))) }
  else
    .error (.schemaError filename (structuralCols.filter (fun c => !t.columns.contains c)))

/-- The dataset list of lines 71-77 (label, csv filename). -/
structure DatasetToMerge where
  name : String
  csv_filename : String
deriving DecidableEq

def specs : List DatasetToMerge :=
  [⟨"Annual change in forest area (latest)", "annual_change_forest_area.csv"⟩,
   ⟨"Annual deforestation (latest)", "annual_deforestation.csv"⟩,
   ⟨"Terrestrial protected areas (latest)", "terrestrial_protected_areas.csv"⟩,
   ⟨"Share degraded land (latest)", "share_degraded_land.csv"⟩,
   ⟨"Red List Index (latest)", "red_list_index.csv"⟩]

def worldFilename : String := "ne_110m_admin_0_countries.zip"

/-- The per-dataset loop of lines 81-109: check the CSV file exists (lines
82-84), merge it, and accumulate the label-indexed results; any raised
error aborts the whole call. -/
def mergeLoop (worldCols : List String) (world : List WorldRow)
    (dir : DownloadsDir) :
    List DatasetToMerge → Except MergeError (List (String × MergedTable))
  | [] => .ok []
  | spec :: rest =>
    match dir.csvs.lookup spec.csv_filename with
    | none => .error (.fileNotFound spec.csv_filename)
    | some t =>
      match mergeOne worldCols world spec.csv_filename t with
      | .error e => .error e
      | .ok m =>
        match mergeLoop worldCols world dir rest with
        | .error e => .error e
        | .ok ms => .ok ((spec.name, m) :: ms)

/-- Embedding of `merge_map_with_datasets` (lines 45-111): load the map
(lines 58-62, `FileNotFoundError` if absent), check `ISO_A3` exists
(lines 65-66), normalize the `-99` sentinel (line 68), then run the
per-dataset loop. -/
def merge_map_with_datasets (dir : DownloadsDir) :
    Except MergeError (List (String × MergedTable)) :=
  match dir.world with
  | none => .error (.fileNotFound worldFilename)
  | some wf =>
    if wf.columns.contains "ISO_A3" then
      mergeLoop wf.columns (wf.rows.map normalizeIso) dir specs
    else .error (.isoA3NotFound wf.columns)

theorem mem_mergeBlock (latest : List LatestRow) (w : WorldRow) (m : MergedRow)
    (h : m ∈ mergeBlock latest w) :
    m.world = w ∧ (m.matched = none ∨
      ∃ r ∈ latest, m.matched = some r ∧ (w.iso_a3 == some r.code) = true) := by
  rw [mergeBlock] at h
  rcases hf : latest.filter (fun r => w.iso_a3 == some r.code) with _ | ⟨x, xs⟩ <;>
    rw [hf] at h
  · have h2 : m ∈ [({ world := w, matched := none } : MergedRow)] := h
    rcases List.mem_singleton.mp h2 with rfl
    exact ⟨rfl, Or.inl rfl⟩
  · have h2 : m ∈ (x :: xs).map (fun y => ({ world := w, matched := some y } : MergedRow)) := h
    rcases List.mem_map.mp h2 with ⟨y, hy, rfl⟩
    have hy2 : y ∈ latest.filter (fun r => w.iso_a3 == some r.code) := by
      rw [hf]; exact hy
    rcases List.mem_filter.mp hy2 with ⟨hyl, hyp⟩
    exact ⟨rfl, Or.inr ⟨y, hyl, rfl, hyp⟩⟩

theorem mergeBlock_map_world (latest : List LatestRow) (w : WorldRow)
    (hdis : ∀ c, latest.countP (fun r => r.code == c) ≤ 1) :
    (mergeBlock latest w).map (fun mr => mr.world) = [w] := by
  rw [mergeBlock]
  rcases hf : latest.filter (fun r => w.iso_a3 == some r.code) with _ | ⟨x, xs⟩
  · rw [hf]
    simp
  · have hxs : xs = [] := by
      rcases hiso : w.iso_a3 with _ | c
      · exfalso
        have hx : x ∈ latest.filter (fun r => w.iso_a3 == some r.code) := by
          rw [hf]; exact List.mem_cons_self x xs
        rcases List.mem_filter.mp hx with ⟨_, hp⟩
        rw [hiso] at hp
        simp at hp
      · have hfq : latest.filter (fun r => w.iso_a3 == some r.code) =
            latest.filter (fun r => r.code == c) := by
          refine List.filter_congr ?_
          intro r _
          rw [hiso, Bool.eq_iff_iff]
          simp only [beq_iff_eq, Option.some.injEq]
          exact eq_comm
        have hlen : (latest.filter (fun r => w.iso_a3 == some r.code)).length ≤ 1 := by
          rw [hfq, ← List.countP_eq_length_filter]
          exact hdis c
        rw [hf] at hlen
        simp only [List.length_cons] at hlen
        have : xs.length = 0 := by omega
        exact List.length_eq_zero.mp this
    subst hxs
    rw [hf]
    simp

theorem leftMerge_map_world (world : List WorldRow) (latest : List LatestRow)
    (hdis : ∀ c, latest.countP (fun r => r.code == c) ≤ 1) :
    (leftMerge world latest).map (fun mr => mr.world) = world := by
  induction world with
  | nil => rfl
  | cons w ws ih =>
    rw [leftMerge, List.flatMap_cons, List.map_append,
      mergeBlock_map_world latest w hdis]
    rw [leftMerge] at ih
    rw [ih]
    rfl

theorem leftMerge_matched_eq_none (world : List WorldRow) (latest : List LatestRow)
    (mr : MergedRow) (h : mr ∈ leftMerge world latest)
    (hnone : ∀ r ∈ latest, ¬ (mr.world.iso_a3 == some r.code) = true) :
    mr.matched = none := by
  rcases List.mem_flatMap.mp h with ⟨w, hw, hb⟩
  rcases mem_mergeBlock latest w mr hb with ⟨hww, hnil | ⟨r, hr, hm, hbeq⟩⟩
  · exact hnil
  · exact absurd (by rw [hww]; exact hbeq) (hnone r hr)

/-- The reduced right side of the join has at most one row per code. -/
theorem countP_latest_le_one (rows : List DataRow) (c : String) :
    (_latest_per_country rows).countP (fun r => r.code == c) ≤ 1 := by
  rw [_latest_per_country, countP_groupTail1]
  split <;> simp

theorem mergeOne_ok_inv (wc : List String) (world : List WorldRow)
    (fn : String) (t : RawTable) (mt : MergedTable)
    (h : mergeOne wc world fn t = .ok mt) :
    ∃ vc, _infer_value_column t.columns = .ok vc ∧
      structuralCols.filter (fun c => !t.columns.contains c) = [] ∧
      mt.columns = (wc ++ ["Entity", "Code", "Year", vc]).map
        (fun c => if c == vc then "value" else c) ∧
      mt.rows = leftMerge world (_latest_per_country (t.rows.map (subsetRow vc))) := by
  rw [mergeOne] at h
  by_cases hm : (structuralCols.filter (fun c => !t.columns.contains c)).isEmpty = true
  · rw [if_pos hm] at h
    rcases hvc : _infer_value_column t.columns with e | vc <;> rw [hvc] at h
    · exact Except.noConfusion h
    · have h2 : Except.ok (ε := MergeError)
          ({ columns := (wc ++ ["Entity", "Code", "Year", vc]).map
               (fun c => if c == vc then "value" else c),
             rows := leftMerge world
               (_latest_per_country (t.rows.map (subsetRow vc))) } : MergedTable) =
          .ok mt := h
      injection h2 with h3
      subst h3
      exact ⟨vc, rfl, List.isEmpty_iff.mp hm, rfl, rfl⟩
  · rw [if_neg hm] at h
    exact Except.noConfusion h

theorem mergeOne_ok_of (wc : List String) (world : List WorldRow)
    (fn : String) (t : RawTable) (vc : String)
    (hsch : structuralCols.filter (fun c => !t.columns.contains c) = [])
    (hvc : _infer_value_column t.columns = .ok vc) :
    ∃ mt, mergeOne wc world fn t = .ok mt := by
  rw [mergeOne, if_pos (by rw [hsch]; rfl), hvc]
  exact ⟨_, rfl⟩

theorem mergeOne_schema_error (wc : List String) (world : List WorldRow)
    (fn : String) (t : RawTable)
    (hne : structuralCols.filter (fun c => !t.columns.contains c) ≠ []) :
    mergeOne wc world fn t =
      .error (.schemaError fn (structuralCols.filter (fun c => !t.columns.contains c))) := by
  rw [mergeOne, if_neg]
  intro hcon
  exact hne (List.isEmpty_iff.mp hcon)

theorem mergeLoop_cons_inv (wc : List String) (world : List WorldRow)
    (dir : DownloadsDir) (s : DatasetToMerge) (rest : List DatasetToMerge)
    (res : List (String × MergedTable))
    (h : mergeLoop wc world dir (s :: rest) = .ok res) :
    ∃ t m ms, dir.csvs.lookup s.csv_filename = some t ∧
      mergeOne wc world s.csv_filename t = .ok m ∧
      mergeLoop wc world dir rest = .ok ms ∧ res = (s.name, m) :: ms := by
  rcases hl : dir.csvs.lookup s.csv_filename with _ | t
  · simp only [mergeLoop, hl] at h
    exact Except.noConfusion h
  · simp only [mergeLoop, hl] at h
    rcases hm : mergeOne wc world s.csv_filename t with e | m <;> rw [hm] at h
    · exact Except.noConfusion h
    · rcases hrest : mergeLoop wc world dir rest with e | ms <;> rw [hrest] at h
      · exact Except.noConfusion h
      · injection h with h2
        subst h2
        exact ⟨t, m, ms, rfl, hm, rfl, rfl⟩

theorem mergeLoop_ok_mem (wc : List String) (world : List WorldRow)
    (dir : DownloadsDir) :
    ∀ (ss : List DatasetToMerge) (res : List (String × MergedTable)),
      mergeLoop wc world dir ss = .ok res →
      ∀ p ∈ res, ∃ s ∈ ss, ∃ t, dir.csvs.lookup s.csv_filename = some t ∧
        p.1 = s.name ∧ mergeOne wc world s.csv_filename t = .ok p.2 := by
  intro ss
  induction ss with
  | nil =>
    intro res h p hp
    simp only [mergeLoop] at h
    injection h with h2
    subst h2
    simp at hp
  | cons s rest ih =>
    intro res h p hp
    rcases mergeLoop_cons_inv wc world dir s rest res h with ⟨t, m, ms, hl, hm, hrest, rfl⟩
    rcases List.mem_cons.mp hp with rfl | hp2
    · exact ⟨s, List.mem_cons_self _ _, t, hl, rfl, hm⟩
    · rcases ih ms hrest p hp2 with ⟨s2, hs2, t2, ht2, hname, hok⟩
      exact ⟨s2, List.mem_cons_of_mem s hs2, t2, ht2, hname, hok⟩

theorem mergeLoop_ok_all (wc : List String) (world : List WorldRow)
    (dir : DownloadsDir) :
    ∀ (ss : List DatasetToMerge) (res : List (String × MergedTable)),
      mergeLoop wc world dir ss = .ok res →
      ∀ s ∈ ss, ∃ t, dir.csvs.lookup s.csv_filename = some t ∧
        structuralCols.filter (fun c => !t.columns.contains c) = [] ∧
        ∃ vc, _infer_value_column t.columns = .ok vc := by
  intro ss
  induction ss with
  | nil =>
    intro res _ s hs
    simp at hs
  | cons s0 rest ih =>
    intro res h s hs
    rcases mergeLoop_cons_inv wc world dir s0 rest res h with ⟨t, m, ms, hl, hm, hrest, rfl⟩
    rcases List.mem_cons.mp hs with rfl | hs2
    · rcases mergeOne_ok_inv wc world s.csv_filename t m hm with ⟨vc, hvc, hsch, _, _⟩
      exact ⟨t, hl, hsch, vc, hvc⟩
    · exact ih ms hrest s hs2

theorem mergeLoop_missing (wc : List String) (world : List WorldRow)
    (dir : DownloadsDir) :
    ∀ ss : List DatasetToMerge,
      (∃ s ∈ ss, dir.csvs.lookup s.csv_filename = none) →
      (∀ s ∈ ss, ∀ t, dir.csvs.lookup s.csv_filename = some t →
        structuralCols.filter (fun c => !t.columns.contains c) = [] ∧
        ∃ vc, _infer_value_column t.columns = .ok vc) →
      ∃ f, mergeLoop wc world dir ss = .error (.fileNotFound f) := by
  intro ss
  induction ss with
  | nil =>
    rintro ⟨s, hs, _⟩ _
    simp at hs
  | cons s rest ih =>
    rintro ⟨s0, hs0, hnone⟩ hwf
    rcases hl : dir.csvs.lookup s.csv_filename with _ | t
    · exact ⟨s.csv_filename, by simp only [mergeLoop, hl]⟩
    · rcases hwf s (List.mem_cons_self _ _) t hl with ⟨hsch, vc, hvc⟩
      rcases mergeOne_ok_of wc world s.csv_filename t vc hsch hvc with ⟨m, hm⟩
      have hrest : ∃ s2 ∈ rest, dir.csvs.lookup s2.csv_filename = none := by
        rcases List.mem_cons.mp hs0 with rfl | h2
        · rw [hl] at hnone
          exact Option.noConfusion hnone
        · exact ⟨s0, h2, hnone⟩
      rcases ih hrest (fun s2 hs2 => hwf s2 (List.mem_cons_of_mem s hs2)) with ⟨f, hf⟩
      exact ⟨f, by simp only [mergeLoop, hl, hm, hf]⟩

theorem merge_ok_inv (dir : DownloadsDir) (res : List (String × MergedTable))
    (h : merge_map_with_datasets dir = .ok res) :
    ∃ wf, dir.world = some wf ∧ wf.columns.contains "ISO_A3" = true ∧
      mergeLoop wf.columns (wf.rows.map normalizeIso) dir specs = .ok res := by
  rcases hw : dir.world with _ | wf
  · simp only [merge_map_with_datasets, hw] at h
    exact Except.noConfusion h
  · simp only [merge_map_with_datasets, hw] at h
    by_cases hc : wf.columns.contains "ISO_A3" = true
    · rw [if_pos hc] at h
      exact ⟨wf, rfl, hc, h⟩
    · rw [if_neg hc] at h
      exact Except.noConfusion h

theorem infer_ok_not_structural {cols : List String} {vc : String}
    (h : _infer_value_column cols = .ok vc) :
    structuralCols.contains vc = false := by
  rw [_infer_value_column] at h
  rcases hl : (cols.filter (fun c => !structuralCols.contains c)).getLast? with _ | c
  · rw [hl] at h
    exact Except.noConfusion h
  · rw [hl] at h
    injection h with h2
    subst h2
    rcases List.mem_filter.mp (List.mem_of_getLast?_eq_some hl) with ⟨_, hp⟩
    rwa [Bool.not_eq_true'] at hp

/-- Helper: appending a structural column does not change the candidate
list. -/
theorem filter_append_structural (ys : List String) (y : String)
    (hy : structuralCols.contains y = true) :
    (ys ++ [y]).filter (fun c => !structuralCols.contains c) =
      ys.filter (fun c => !structuralCols.contains c) := by
  rw [List.filter_append]
  have h3 : (!structuralCols.contains y) = false := by
    rw [hy]
    rfl
  have h2 : [y].filter (fun c => !structuralCols.contains c) = [] := by
    rw [List.filter_cons, if_neg (by rw [h3]; exact Bool.false_ne_true)]
    rfl
  rw [h2, List.append_nil]

/-- C3: on a header with at least one non-structural column,
`_infer_value_column` returns a non-structural column after which only
structural columns appear (the positionally last candidate); on a header
with no non-structural column it raises the inference error. -/
theorem infer_value_column_spec (cols : List String) :
    ((∃ c ∈ cols, structuralCols.contains c = false) →
      ∃ v l1 l2, _infer_value_column cols = .ok v ∧ cols = l1 ++ v :: l2 ∧
        structuralCols.contains v = false ∧
        ∀ d ∈ l2, structuralCols.contains d = true) ∧
    ((∀ c ∈ cols, structuralCols.contains c = true) →
      _infer_value_column cols = .error (.inferenceError cols)) := by
  induction cols using List.reverseRecOn with
  | nil =>
    constructor
    · rintro ⟨c, hc, _⟩
      simp at hc
    · intro
      rfl
  | append_singleton ys y ih =>
    by_cases hy : structuralCols.contains y = true
    · constructor
      · rintro ⟨c, hc, hcs⟩
        have hcys : c ∈ ys := by
          rcases List.mem_append.mp hc with h2 | h2
          · exact h2
          · rcases List.mem_singleton.mp h2 with rfl
            rw [hy] at hcs
            exact Bool.noConfusion hcs
        rcases ih.1 ⟨c, hcys, hcs⟩ with ⟨v, l1, l2, hok, heq, hv, hl2⟩
        refine ⟨v, l1, l2 ++ [y], ?_, ?_, hv, ?_⟩
        · rw [_infer_value_column, filter_append_structural ys y hy]
          rw [_infer_value_column] at hok
          rcases hl : (ys.filter (fun c => !structuralCols.contains c)).getLast? with _ | c2
          · rw [hl] at hok
            exact Except.noConfusion hok
          · rw [hl] at hok
            exact hok
        · rw [heq]
          simp
        · intro d hd
          rcases List.mem_append.mp hd with h2 | h2
          · exact hl2 d h2
          · rcases List.mem_singleton.mp h2 with rfl
            exact hy
      · intro hall
        have h2 := ih.2 (fun c hc => hall c (List.mem_append.mpr (Or.inl hc)))
        rw [_infer_value_column] at h2
        rw [_infer_value_column, filter_append_structural ys y hy]
        rcases hl : (ys.filter (fun c => !structuralCols.contains c)).getLast? with _ | c
        · rfl
        · rw [hl] at h2
          exact Except.noConfusion h2
    · have hyf : structuralCols.contains y = false := by
        cases hcy : structuralCols.contains y
        · rfl
        · exact absurd hcy hy
      constructor
      · intro _
        refine ⟨y, ys, [], ?_, rfl, hyf, fun d hd => absurd hd (List.not_mem_nil d)⟩
        rw [_infer_value_column, List.filter_append]
        have h3 : (!structuralCols.contains y) = true := by
          rw [hyf]
          rfl
        have hfy : [y].filter (fun c => !structuralCols.contains c) = [y] := by
          rw [List.filter_cons, if_pos h3]
          rfl
        rw [hfy, List.getLast?_concat]
      · intro hall
        exact absurd (hall y (List.mem_append.mpr (Or.inr (List.mem_singleton.mpr rfl)))) hy

/-- Witness for C3: on `[Entity, Code, Year, GDP]` inference succeeds with
the last non-structural column (and indeed returns `GDP`); on
`[Entity, Code, Year]` it raises the inference error. -/
theorem infer_value_column_spec_witness :
    (∃ v l1 l2, _infer_value_column ["Entity", "Code", "Year", "GDP"] = .ok v ∧
      ["Entity", "Code", "Year", "GDP"] = l1 ++ v :: l2 ∧
      structuralCols.contains v = false ∧
      ∀ d ∈ l2, structuralCols.contains d = true) ∧
    _infer_value_column ["Entity", "Code", "Year"] =
      .error (.inferenceError ["Entity", "Code", "Year"]) ∧
    _infer_value_column ["Entity", "Code", "Year", "GDP"] = .ok "GDP" :=
  ⟨(infer_value_column_spec ["Entity", "Code", "Year", "GDP"]).1
      ⟨"GDP", by decide, by decide⟩,
   (infer_value_column_spec ["Entity", "Code", "Year"]).2 (by decide),
   rfl⟩

/-- C1: a successful per-dataset merge preserves the polygon map's rows
exactly — the output rows project to the map's rows in order (so the row
counts agree), and a polygon whose (normalized) code matches no row of
the latest-per-country-reduced dataset carries a null value. -/
theorem merge_preserves_map_rows (wc : List String) (world : List WorldRow)
    (fn : String) (t : RawTable) (mt : MergedTable)
    (h : mergeOne wc world fn t = .ok mt) :
    mt.rows.length = world.length ∧
    mt.rows.map (fun mr => mr.world) = world ∧
    ∃ vc, _infer_value_column t.columns = .ok vc ∧
      ∀ mr ∈ mt.rows,
        (∀ r ∈ _latest_per_country (t.rows.map (subsetRow vc)),
          mr.world.iso_a3 ≠ some r.code) →
        mr.matched = none := by
  rcases mergeOne_ok_inv wc world fn t mt h with ⟨vc, hvc, _, _, hrows⟩
  have hdis : ∀ c, (_latest_per_country (t.rows.map (subsetRow vc))).countP
      (fun r => r.code == c) ≤ 1 := fun c => countP_latest_le_one _ c
  have hmap : mt.rows.map (fun mr => mr.world) = world := by
    rw [hrows]
    exact leftMerge_map_world world _ hdis
  refine ⟨?_, hmap, vc, hvc, ?_⟩
  · have h2 := congrArg List.length hmap
    rwa [List.length_map] at h2
  · intro mr hmr hnone
    rw [hrows] at hmr
    refine leftMerge_matched_eq_none world _ mr hmr ?_
    intro r hr hcon
    rw [beq_iff_eq] at hcon
    exact hnone r hr hcon

/-- Witness for C1 at a concrete one-polygon map and one-row dataset. -/
theorem merge_preserves_map_rows_witness :
    ([⟨⟨some "KEN", "geom", []⟩, some ⟨"Kenya", "KEN", 2020, "12"⟩⟩] : List MergedRow).length =
      ([⟨some "KEN", "geom", []⟩] : List WorldRow).length ∧
    ([⟨⟨some "KEN", "geom", []⟩, some ⟨"Kenya", "KEN", 2020, "12"⟩⟩] : List MergedRow).map
      (fun mr => mr.world) = [⟨some "KEN", "geom", []⟩] ∧
    ∃ vc, _infer_value_column ["Entity", "Code", "Year", "GDP"] = .ok vc ∧
      ∀ mr ∈ ([⟨⟨some "KEN", "geom", []⟩, some ⟨"Kenya", "KEN", 2020, "12"⟩⟩] : List MergedRow),
        (∀ r ∈ _latest_per_country
            (([⟨"Kenya", some "KEN", "2020", [("GDP", "12")]⟩] : List CsvRow).map (subsetRow vc)),
          mr.world.iso_a3 ≠ some r.code) →
        mr.matched = none :=
  merge_preserves_map_rows ["ISO_A3"] [⟨some "KEN", "geom", []⟩]
    "annual_change_forest_area.csv"
    ⟨["Entity", "Code", "Year", "GDP"], [⟨"Kenya", some "KEN", "2020", [("GDP", "12")]⟩]⟩
    ⟨["ISO_A3", "Entity", "Code", "Year", "value"],
     [⟨⟨some "KEN", "geom", []⟩, some ⟨"Kenya", "KEN", 2020, "12"⟩⟩]⟩ (by rfl)

/-- C6 counterexample: the merged output is NOT "map fields plus only a
`value` field" — the pandas left merge keeps every right-side column, so
the dataset's structural columns survive.  At this concrete input the
output header contains `"Code"`, a dataset-originated field that is
neither a map column nor `value`. -/
theorem merged_keeps_dataset_fields :
    mergeOne ["ISO_A3", "geometry"] [] "d.csv" ⟨["Entity", "Code", "Year", "GDP"], []⟩ =
      .ok ⟨["ISO_A3", "geometry", "Entity", "Code", "Year", "value"], []⟩ ∧
    "Code" ∈ ["ISO_A3", "geometry", "Entity", "Code", "Year", "value"] ∧
    "Code" ∉ ["ISO_A3", "geometry"] ∧ ("Code" : String) ≠ "value" :=
  ⟨rfl, by decide, by decide, by decide⟩

/-- C6 amended: a successfully merged table carries the map's columns,
then the dataset's structural columns `Entity`, `Code`, `Year`, then the
inferred value column renamed to the canonical name `value`; its rows are
the map's records each extended with the optional matched dataset row. -/
theorem merged_columns_spec (wc : List String) (world : List WorldRow)
    (fn : String) (t : RawTable) (mt : MergedTable) (vc : String)
    (h : mergeOne wc world fn t = .ok mt)
    (hvc : _infer_value_column t.columns = .ok vc)
    (hw : ∀ c ∈ wc, c ≠ vc) :
    mt.columns = wc ++ ["Entity", "Code", "Year", "value"] ∧
    mt.rows.map (fun mr => mr.world) = world := by
  rcases mergeOne_ok_inv wc world fn t mt h with ⟨vc2, hvc2, _, hcols, hrows⟩
  have hv2 : vc = vc2 := by
    rw [hvc] at hvc2
    exact Except.ok.inj hvc2
  subst hv2
  constructor
  · rw [hcols, List.map_append]
    have hA : wc.map (fun c => if c == vc then "value" else c) = wc := by
      have hA2 : wc.map (fun c => if c == vc then "value" else c) = wc.map id :=
        List.map_congr_left (fun c hc => by
          rw [if_neg (fun hbe => hw c hc (by rwa [beq_iff_eq] at hbe))]
          rfl)
      rw [hA2, List.map_id]
    have hne : vc ∉ structuralCols := by
      intro hmem
      have h3 : structuralCols.contains vc = true := List.elem_iff.mpr hmem
      rw [infer_ok_not_structural hvc] at h3
      exact Bool.noConfusion h3
    have h1 : ("Entity" == vc) = false :=
      beq_eq_false_iff_ne.mpr
        (fun he => hne (he ▸ (by decide : "Entity" ∈ structuralCols)))
    have h2 : ("Code" == vc) = false :=
      beq_eq_false_iff_ne.mpr
        (fun he => hne (he ▸ (by decide : "Code" ∈ structuralCols)))
    have h3 : ("Year" == vc) = false :=
      beq_eq_false_iff_ne.mpr
        (fun he => hne (he ▸ (by decide : "Year" ∈ structuralCols)))
    have hB : (["Entity", "Code", "Year", vc] : List String).map
        (fun c => if c == vc then "value" else c) =
        ["Entity", "Code", "Year", "value"] := by
      simp only [List.map_cons, List.map_nil, h1, h2, h3, beq_self_eq_true,
        if_true, if_false]
      rfl
    rw [hA, hB]
  · rw [hrows]
    exact leftMerge_map_world world _ (fun c => countP_latest_le_one _ c)

/-- Witness for the amended C6 at a concrete input. -/
theorem merged_columns_spec_witness :
    (MergedTable.columns ⟨["ISO_A3", "geometry", "Entity", "Code", "Year", "value"], []⟩ =
      ["ISO_A3", "geometry"] ++ ["Entity", "Code", "Year", "value"]) ∧
    (MergedTable.rows
        (⟨["ISO_A3", "geometry", "Entity", "Code", "Year", "value"], []⟩ : MergedTable)).map
      (fun mr => mr.world) = ([] : List WorldRow) :=
  merged_columns_spec ["ISO_A3", "geometry"] [] "d.csv"
    ⟨["Entity", "Code", "Year", "GDP"], []⟩
    ⟨["ISO_A3", "geometry", "Entity", "Code", "Year", "value"], []⟩ "GDP"
    (by rfl) (by rfl) (by decide)

/-- C7: a dataset missing required structural columns makes its merge
raise the schema error carrying exactly the missing columns; a dataset
whose value-column inference fails makes its merge raise that inference
error; and a call that returns a result mapping had, for every configured
dataset, a table that passed both the schema check and inference — so any
schema or inference failure makes the whole call fail with no partial
mapping (the result type carries either the full mapping or the error). -/
theorem schema_error_behaviour :
    (∀ (wc : List String) (world : List WorldRow) (fn : String) (t : RawTable),
      structuralCols.filter (fun c => !t.columns.contains c) ≠ [] →
      mergeOne wc world fn t =
        .error (.schemaError fn
          (structuralCols.filter (fun c => !t.columns.contains c))) ∧
      ∀ c, c ∈ structuralCols.filter (fun c => !t.columns.contains c) ↔
        (c ∈ structuralCols ∧ c ∉ t.columns)) ∧
    (∀ (wc : List String) (world : List WorldRow) (fn : String) (t : RawTable)
      (e : MergeError),
      structuralCols.filter (fun c => !t.columns.contains c) = [] →
      _infer_value_column t.columns = .error e →
      mergeOne wc world fn t = .error e) ∧
    (∀ (dir : DownloadsDir) (res : List (String × MergedTable)),
      merge_map_with_datasets dir = .ok res →
      ∀ s ∈ specs, ∀ t, dir.csvs.lookup s.csv_filename = some t →
        structuralCols.filter (fun c => !t.columns.contains c) = [] ∧
        ∃ vc, _infer_value_column t.columns = .ok vc) := by
  refine ⟨?_, ?_, ?_⟩
  · intro wc world fn t hne
    refine ⟨mergeOne_schema_error wc world fn t hne, ?_⟩
    intro c
    rw [List.mem_filter]
    constructor
    · rintro ⟨hc, hnc⟩
      refine ⟨hc, ?_⟩
      intro hmem
      have h3 : t.columns.contains c = true := List.elem_iff.mpr hmem
      rw [h3] at hnc
      exact Bool.noConfusion hnc
    · rintro ⟨hc, hnc⟩
      refine ⟨hc, ?_⟩
      have h3 : t.columns.contains c = false := by
        cases h4 : t.columns.contains c
        · rfl
        · exact absurd (List.elem_iff.mp h4) hnc
      rw [h3]
      rfl
  · intro wc world fn t e hsch hinf
    rw [mergeOne, if_pos (by rw [hsch]; rfl), hinf]
  · intro dir res hok s hs t ht
    rcases merge_ok_inv dir res hok with ⟨wf, _, _, hloop⟩
    rcases mergeLoop_ok_all _ _ dir specs res hloop s hs with ⟨t2, ht2, hsch, hinf⟩
    rw [ht] at ht2
    rw [Option.some.inj ht2]
    exact ⟨hsch, hinf⟩

/-- Witness for C7: a table with header `[Entity, Code]` produces the
schema error naming the missing column `Year`, and a table with header
`[Entity, Code, Year]` (no candidate value column) makes its merge fail
with the inference error. -/
theorem schema_error_behaviour_witness :
    mergeOne ["ISO_A3"] [] "annual_deforestation.csv" ⟨["Entity", "Code"], []⟩ =
      .error (.schemaError "annual_deforestation.csv" ["Year"]) ∧
    ("Year" ∈ (["Year"] : List String) ↔
      ("Year" ∈ structuralCols ∧ "Year" ∉ (["Entity", "Code"] : List String))) ∧
    mergeOne ["ISO_A3"] [] "red_list_index.csv" ⟨["Entity", "Code", "Year"], []⟩ =
      .error (.inferenceError ["Entity", "Code", "Year"]) :=
  ⟨(schema_error_behaviour.1 ["ISO_A3"] [] "annual_deforestation.csv"
      ⟨["Entity", "Code"], []⟩ (by decide)).1,
   (schema_error_behaviour.1 ["ISO_A3"] [] "annual_deforestation.csv"
      ⟨["Entity", "Code"], []⟩ (by decide)).2 "Year",
   schema_error_behaviour.2.1 ["ISO_A3"] [] "red_list_index.csv"
     ⟨["Entity", "Code", "Year"], []⟩ (.inferenceError ["Entity", "Code", "Year"])
     (by decide) (by rfl)⟩

/-- C8 counterexample: an invocation in which a configured dataset file
(`annual_deforestation.csv`) is absent from the downloads directory, yet
the call fails with a schema error, not a file-not-found error — the
loop processes datasets in configuration order and the first dataset,
present but missing its `Year` column, raises its schema error before
the absent file is ever checked.  The last conjunct states directly that
the result is not a file-not-found error of any path. -/
theorem missing_dataset_fails_with_schema_error :
    merge_map_with_datasets
        ⟨some ⟨["ISO_A3"], []⟩,
         [("annual_change_forest_area.csv", ⟨["Entity", "Code"], []⟩)]⟩ =
      .error (.schemaError "annual_change_forest_area.csv" ["Year"]) ∧
    (⟨"Annual deforestation (latest)", "annual_deforestation.csv"⟩ : DatasetToMerge) ∈ specs ∧
    ([("annual_change_forest_area.csv", (⟨["Entity", "Code"], []⟩ : RawTable))]
        : List (String × RawTable)).lookup "annual_deforestation.csv" = none ∧
    (match merge_map_with_datasets
        ⟨some ⟨["ISO_A3"], []⟩,
         [("annual_change_forest_area.csv", ⟨["Entity", "Code"], []⟩)]⟩ with
      | .error (.fileNotFound _) => true
      | _ => false) = false :=
  ⟨rfl, by decide, rfl, rfl⟩

/-- C8 amended: if the polygon map file or any configured dataset file is
absent from the downloads directory, the merge call never returns a
result mapping (it fails before producing any merged result); an absent
map file yields the file-not-found error directly, and when the map file
has its `ISO_A3` column and every present dataset file is well formed —
i.e. when no data-shape error of an earlier-processed file preempts the
existence check — the failure is a file-not-found error.  The embedding
is a pure function of the directory contents, so the failure is never
retried. -/
theorem missing_file_fails (dir : DownloadsDir)
    (hmiss : dir.world = none ∨ ∃ s ∈ specs, dir.csvs.lookup s.csv_filename = none) :
    (∀ res, merge_map_with_datasets dir ≠ .ok res) ∧
    (dir.world = none →
      merge_map_with_datasets dir = .error (.fileNotFound worldFilename)) ∧
    ((∀ wf, dir.world = some wf → wf.columns.contains "ISO_A3" = true) →
      (∀ s ∈ specs, ∀ t, dir.csvs.lookup s.csv_filename = some t →
        structuralCols.filter (fun c => !t.columns.contains c) = [] ∧
        ∃ vc, _infer_value_column t.columns = .ok vc) →
      ∃ f, merge_map_with_datasets dir = .error (.fileNotFound f)) := by
  refine ⟨?_, ?_, ?_⟩
  · intro res hok
    rcases merge_ok_inv dir res hok with ⟨wf, hw, _, hloop⟩
    rcases hmiss with hmiss | ⟨s, hs, hnone⟩
    · rw [hw] at hmiss
      exact Option.noConfusion hmiss
    · rcases mergeLoop_ok_all _ _ dir specs res hloop s hs with ⟨t2, ht2, _⟩
      rw [hnone] at ht2
      exact Option.noConfusion ht2
  · intro hw
    simp only [merge_map_with_datasets, hw]
  · intro hwfcol hwf
    rcases hw : dir.world with _ | wf
    · exact ⟨worldFilename, by simp only [merge_map_with_datasets, hw]⟩
    · have hiso := hwfcol wf hw
      have hmiss2 : ∃ s ∈ specs, dir.csvs.lookup s.csv_filename = none := by
        rcases hmiss with hm | hm
        · rw [hw] at hm
          exact Option.noConfusion hm
        · exact hm
      rcases mergeLoop_missing wf.columns (wf.rows.map normalizeIso) dir specs
        hmiss2 hwf with ⟨f, hf⟩
      refine ⟨f, ?_⟩
      simp only [merge_map_with_datasets, hw]
      rw [if_pos hiso]
      exact hf

/-- Witness for C8: an empty downloads directory fails with the
file-not-found error for the map archive. -/
theorem missing_file_fails_witness :
    merge_map_with_datasets ⟨none, []⟩ = .error (.fileNotFound worldFilename) :=
  (missing_file_fails ⟨none, []⟩ (Or.inl rfl)).2.1 rfl

theorem get_congr {α : Type} {l1 l2 : List α} (h : l1 = l2) (i : Nat)
    (h1 : i < l1.length) (h2 : i < l2.length) :
    l1.get ⟨i, h1⟩ = l2.get ⟨i, h2⟩ := by
  subst h
  rfl

/-- C4: a polygon whose raw `ISO_A3` field is the sentinel `"-99"` has
its code normalized to null before the join, and its row in every merged
result of a successful call carries a null value. -/
theorem sentinel_code_never_matches (dir : DownloadsDir) (wf : WorldFile)
    (res : List (String × MergedTable)) (nm : String) (mt : MergedTable)
    (i : Nat) (hw : dir.world = some wf)
    (hok : merge_map_with_datasets dir = .ok res)
    (hmem : (nm, mt) ∈ res) (hi : i < wf.rows.length)
    (hsent : (wf.rows.get ⟨i, hi⟩).iso_a3 = some "-99") :
    ∃ hm : i < mt.rows.length,
      (mt.rows.get ⟨i, hm⟩).world.iso_a3 = none ∧
      (mt.rows.get ⟨i, hm⟩).matched = none := by
  rcases merge_ok_inv dir res hok with ⟨wf2, hw2, _, hloop⟩
  have hwf2 : wf = wf2 := by
    rw [hw] at hw2
    exact Option.some.inj hw2
  subst hwf2
  rcases mergeLoop_ok_mem _ _ dir specs res hloop (nm, mt) hmem with
    ⟨s, _, t, _, _, hok2⟩
  rcases mergeOne_ok_inv _ _ _ t mt hok2 with ⟨vc, _, _, _, hrows⟩
  have hmap : mt.rows.map (fun mr => mr.world) = wf.rows.map normalizeIso := by
    rw [hrows]
    exact leftMerge_map_world _ _ (fun c => countP_latest_le_one _ c)
  have hlen : mt.rows.length = wf.rows.length := by
    have h2 := congrArg List.length hmap
    rwa [List.length_map, List.length_map] at h2
  have hm : i < mt.rows.length := by
    rw [hlen]
    exact hi
  have hgetw : (mt.rows.get ⟨i, hm⟩).world = normalizeIso (wf.rows.get ⟨i, hi⟩) := by
    have hmm : i < (mt.rows.map (fun mr => mr.world)).length := by
      rw [List.length_map]
      exact hm
    have hmi : i < (wf.rows.map normalizeIso).length := by
      rw [List.length_map]
      exact hi
    have h2 := get_congr hmap i hmm hmi
    rw [List.get_map, List.get_map] at h2
    exact h2
  have hnorm : normalizeIso (wf.rows.get ⟨i, hi⟩) =
      { wf.rows.get ⟨i, hi⟩ with iso_a3 := none } := by
    rw [normalizeIso, if_pos (by rw [hsent]; rfl)]
  have hisonone : (mt.rows.get ⟨i, hm⟩).world.iso_a3 = none := by
    rw [hgetw, hnorm]
  refine ⟨hm, hisonone, ?_⟩
  have hmemrow : mt.rows.get ⟨i, hm⟩ ∈
      leftMerge (wf.rows.map normalizeIso)
        (_latest_per_country (t.rows.map (subsetRow vc))) := by
    rw [← hrows]
    exact List.get_mem mt.rows _ _
  refine leftMerge_matched_eq_none _ _ _ hmemrow ?_
  intro r _ hcon
  rw [hisonone] at hcon
  exact Bool.noConfusion hcon

/-- Witness for C4: a one-polygon map whose `ISO_A3` is `"-99"`, merged
against five empty datasets, yields a null code and null value. -/
theorem sentinel_code_never_matches_witness :
    ∃ hm : 0 < ([⟨⟨none, "geom", []⟩, none⟩] : List MergedRow).length,
      (([⟨⟨none, "geom", []⟩, none⟩] : List MergedRow).get ⟨0, hm⟩).world.iso_a3 = none ∧
      (([⟨⟨none, "geom", []⟩, none⟩] : List MergedRow).get ⟨0, hm⟩).matched = none :=
  sentinel_code_never_matches
    ⟨some ⟨["ISO_A3"], [⟨some "-99", "geom", []⟩]⟩,
     [("annual_change_forest_area.csv", ⟨["Entity", "Code", "Year", "X"], []⟩),
      ("annual_deforestation.csv", ⟨["Entity", "Code", "Year", "X"], []⟩),
      ("terrestrial_protected_areas.csv", ⟨["Entity", "Code", "Year", "X"], []⟩),
      ("share_degraded_land.csv", ⟨["Entity", "Code", "Year", "X"], []⟩),
      ("red_list_index.csv", ⟨["Entity", "Code", "Year", "X"], []⟩)]⟩
    ⟨["ISO_A3"], [⟨some "-99", "geom", []⟩]⟩
    [("Annual change in forest area (latest)",
      ⟨["ISO_A3", "Entity", "Code", "Year", "value"], [⟨⟨none, "geom", []⟩, none⟩]⟩),
     ("Annual deforestation (latest)",
      ⟨["ISO_A3", "Entity", "Code", "Year", "value"], [⟨⟨none, "geom", []⟩, none⟩]⟩),
     ("Terrestrial protected areas (latest)",
      ⟨["ISO_A3", "Entity", "Code", "Year", "value"], [⟨⟨none, "geom", []⟩, none⟩]⟩),
     ("Share degraded land (latest)",
      ⟨["ISO_A3", "Entity", "Code", "Year", "value"], [⟨⟨none, "geom", []⟩, none⟩]⟩),
     ("Red List Index (latest)",
      ⟨["ISO_A3", "Entity", "Code", "Year", "value"], [⟨⟨none, "geom", []⟩, none⟩]⟩)]
    "Annual change in forest area (latest)"
    ⟨["ISO_A3", "Entity", "Code", "Year", "value"], [⟨⟨none, "geom", []⟩, none⟩]⟩
    0 rfl (by rfl) (by decide) (by decide) rfl

/-! ### `download_required_datasets` (download_data.py lines 23-115)

The filesystem and the network are oracles: `present f` embeds
`destination.exists()` for the file named `f`, and `net u` says whether
downloading URL `u` succeeds this run.  `_download_file`'s bounded retry
loop re-requests the same URL with the same outcome under a deterministic
oracle, so it collapses to one `net` consultation: success writes the
file, exhausted retries raise `DownloadError`.  The embedding returns the
`Except` result of the loop together with the list of URLs for which at
least one network request was made (most recent first; only emptiness and
membership of this log are used). -/

structure DatasetSpec where
  filename : String
  url : String
deriving DecidableEq

def dl_datasets : List DatasetSpec :=
  [⟨"annual_change_forest_area.csv",
    "https://ourworldindata.org/grapher/annual-change-forest-area.csv"⟩,
   ⟨"annual_deforestation.csv",
    "https://ourworldindata.org/grapher/annual-deforestation.csv"⟩,
   ⟨"terrestrial_protected_areas.csv",
    "https://ourworldindata.org/grapher/terrestrial-protected-areas.csv"⟩,
   ⟨"share_degraded_land.csv",
    "https://ourworldindata.org/grapher/share-degraded-land.csv"⟩,
   ⟨"red_list_index.csv",
    "https://ourworldindata.org/grapher/red-list-index.csv"⟩,
   ⟨"ne_110m_admin_0_countries.zip",
    "https://naturalearth.s3.amazonaws.com/110m_cultural/ne_110m_admin_0_countries.zip"⟩]

inductive DownloadError where
  | failed (url : String)
deriving DecidableEq

/-- Embedding of `downloads_path / dataset.filename`. -/
def dlPath (dir filename : String) : String := dir ++ "/" ++ filename

def downloadLoop (dir : String) (present net : String → Bool) (force : Bool) :
    List DatasetSpec → Except DownloadError (List String) × List String
  | [] => (.ok [], [])
  | d :: rest =>
    if present d.filename && !force then
      match downloadLoop dir present net force rest with
      | (.ok ps, reqs) => (.ok (dlPath dir d.filename :: ps), reqs)
      | (.error e, reqs) => (.error e, reqs)
    else
      if net d.url then
        match downloadLoop dir present net force rest with
        | (.ok ps, reqs) => (.ok (dlPath dir d.filename :: ps), d.url :: reqs)
        | (.error e, reqs) => (.error e, d.url :: reqs)
      else (.error (.failed d.url), [d.url])

def download_required_datasets (dir : String) (present net : String → Bool)
    (force : Bool) : Except DownloadError (List String) × List String :=
  downloadLoop dir present net force dl_datasets

theorem downloadLoop_ok_paths (dir : String) (present net : String → Bool)
    (force : Bool) :
    ∀ (ss : List DatasetSpec) (ps reqs : List String),
      downloadLoop dir present net force ss = (.ok ps, reqs) →
      ps = ss.map (fun d => dlPath dir d.filename) := by
  intro ss
  induction ss with
  | nil =>
    intro ps reqs h
    simp only [downloadLoop] at h
    injection h with h1 _
    injection h1 with h2
    exact h2.symm
  | cons d rest ih =>
    intro ps reqs h
    simp only [downloadLoop] at h
    by_cases hc : (present d.filename && !force) = true
    · rw [if_pos hc] at h
      rcases hrec : downloadLoop dir present net force rest with ⟨r, reqs2⟩
      rw [hrec] at h
      rcases r with e | ps2
      · injection h with h1 _
        exact Except.noConfusion h1
      · injection h with h1 _
        injection h1 with h2
        rw [← h2, List.map_cons, ih ps2 reqs2 hrec]
    · rw [if_neg hc] at h
      by_cases hn : net d.url = true
      · rw [if_pos hn] at h
        rcases hrec : downloadLoop dir present net force rest with ⟨r, reqs2⟩
        rw [hrec] at h
        rcases r with e | ps2
        · injection h with h1 _
          exact Except.noConfusion h1
        · injection h with h1 _
          injection h1 with h2
          rw [← h2, List.map_cons, ih ps2 reqs2 hrec]
      · rw [if_neg hn] at h
        injection h with h1 _
        exact Except.noConfusion h1

theorem downloadLoop_skip (dir : String) (present net : String → Bool) :
    ∀ ss : List DatasetSpec, (∀ d ∈ ss, present d.filename = true) →
      downloadLoop dir present net false ss =
        (.ok (ss.map (fun d => dlPath dir d.filename)), []) := by
  intro ss
  induction ss with
  | nil => intro _; rfl
  | cons d rest ih =>
    intro hall
    have hd : present d.filename = true := hall d (List.mem_cons_self _ _)
    simp only [downloadLoop]
    rw [if_pos (by rw [hd]; rfl),
      ih (fun d2 hd2 => hall d2 (List.mem_cons_of_mem d hd2))]
    rfl

theorem downloadLoop_reqs (dir : String) (present net : String → Bool)
    (force : Bool) :
    ∀ (ss : List DatasetSpec) (u : String),
      u ∈ (downloadLoop dir present net force ss).2 →
      ∃ d ∈ ss, u = d.url ∧ (present d.filename && !force) = false := by
  intro ss
  induction ss with
  | nil =>
    intro u hu
    simp [downloadLoop] at hu
  | cons d rest ih =>
    intro u hu
    simp only [downloadLoop] at hu
    have hcfalse : ¬ (present d.filename && !force) = true →
        (present d.filename && !force) = false := by
      intro hc
      cases hcc : (present d.filename && !force)
      · rfl
      · exact absurd hcc hc
    by_cases hc : (present d.filename && !force) = true
    · rw [if_pos hc] at hu
      rcases hrec : downloadLoop dir present net force rest with ⟨r, reqs2⟩
      rw [hrec] at hu
      have hu2 : u ∈ reqs2 := by rcases r with e | ps2 <;> exact hu
      rcases ih u (by rw [hrec]; exact hu2) with ⟨d2, hd2, hurl, hskip⟩
      exact ⟨d2, List.mem_cons_of_mem d hd2, hurl, hskip⟩
    · rw [if_neg hc] at hu
      by_cases hn : net d.url = true
      · rw [if_pos hn] at hu
        rcases hrec : downloadLoop dir present net force rest with ⟨r, reqs2⟩
        rw [hrec] at hu
        have hu2 : u ∈ d.url :: reqs2 := by rcases r with e | ps2 <;> exact hu
        rcases List.mem_cons.mp hu2 with rfl | hu3
        · exact ⟨d, List.mem_cons_self _ _, rfl, hcfalse hc⟩
        · rcases ih u (by rw [hrec]; exact hu3) with ⟨d2, hd2, hurl, hskip⟩
          exact ⟨d2, List.mem_cons_of_mem d hd2, hurl, hskip⟩
      · rw [if_neg hn] at hu
        rcases List.mem_singleton.mp hu with rfl
        exact ⟨d, List.mem_cons_self _ _, rfl, hcfalse hc⟩

/-- The six configured sources have pairwise distinct URLs. -/
theorem dl_url_inj :
    ∀ d ∈ dl_datasets, ∀ d2 ∈ dl_datasets, d.url = d2.url → d = d2 := by decide

/-- C9: a successful retrieval pass returns exactly one path per
configured dataset, in configuration order; when every destination file
already exists and `force` is false, the run performs zero network
requests and returns the existing paths; and a dataset whose destination
exists is never requested over the network when `force` is false. -/
theorem download_behaviour (dir : String) (present net : String → Bool)
    (force : Bool) :
    (∀ ps reqs, download_required_datasets dir present net force = (.ok ps, reqs) →
      ps = dl_datasets.map (fun d => dlPath dir d.filename)) ∧
    ((∀ d ∈ dl_datasets, present d.filename = true) →
      download_required_datasets dir present net false =
        (.ok (dl_datasets.map (fun d => dlPath dir d.filename)), [])) ∧
    (∀ d ∈ dl_datasets, present d.filename = true → force = false →
      d.url ∉ (download_required_datasets dir present net force).2) := by
  refine ⟨?_, ?_, ?_⟩
  · intro ps reqs h
    exact downloadLoop_ok_paths dir present net force dl_datasets ps reqs h
  · intro hall
    exact downloadLoop_skip dir present net dl_datasets hall
  · intro d hd hp hf hin
    subst hf
    rcases downloadLoop_reqs dir present net false dl_datasets d.url hin with
      ⟨d2, hd2, hurl, hskip⟩
    have hdd : d = d2 := dl_url_inj d hd d2 hd2 hurl
    subst hdd
    rw [hp] at hskip
    exact Bool.noConfusion hskip

/-- Witness for C9: with every file present and `force = false`, the run
returns the six configured paths in order and requests nothing. -/
theorem download_behaviour_witness :
    download_required_datasets "downloads" (fun _ => true) (fun _ => true) false =
      (.ok (dl_datasets.map (fun d => dlPath "downloads" d.filename)), []) :=
  (download_behaviour "downloads" (fun _ => true) (fun _ => true) false).2.1
    (by decide)

end Okavango
